import Mathlib

/-!
Verification development for the voice-activity-gated audio pipeline in
`src/main.py` (`ContinuousSink`).  The per-frame dispatch logic
(`ContinuousSink.write`, lines 44-96), the RMS estimation (lines 49-57) and
the utterance processor's state effect (`ContinuousSink.process_audio`,
lines 98-165) are shallowly embedded below.  PCM frames are byte lists,
timestamps are rationals, and the Python dict `self.user_data` is an
association list.  The idealisation: Python's float arithmetic in
`math.sqrt(sum_squares / count)` is modelled with exact real arithmetic.
-/

namespace VoicePipeline

/-- `SILENCE_THRESHOLD = 500` (main.py line 29): RMS amplitude threshold. -/
def SILENCE_THRESHOLD : ℕ := 500

/-- `SILENCE_DURATION = 1.2` (main.py line 30): seconds of silence that trigger a flush. -/
def SILENCE_DURATION : ℚ := 6 / 5

/-- `MIN_AUDIO_LENGTH = 0.5` (main.py line 31): minimum seconds of speech to process. -/
def MIN_AUDIO_LENGTH : ℚ := 1 / 2

/-- The byte count a flushed buffer must exceed to be dispatched
(main.py line 86: `MIN_AUDIO_LENGTH * 48000 * 2 * 2`). -/
def minDispatchBytes : ℚ := MIN_AUDIO_LENGTH * 48000 * 2 * 2

/-- Reinterpret the unsigned 16-bit value of a little-endian byte pair as a
signed 16-bit sample, as `struct.unpack("<h", ...)` does (main.py line 53). -/
def toSigned16 (v : ℕ) : ℤ :=
  if v < 32768 then (v : ℤ) else (v : ℤ) - 65536

/-- Decode a raw PCM byte string into its 16-bit little-endian signed samples
(main.py lines 50-53).  `struct.unpack` with format `"<" + "h" * (len(pcm) // 2)`
raises on a buffer whose length is odd (the format consumes `2 * count` bytes);
that failure is modelled as `none`. -/
def bytesToSamples : List ℕ → Option (List ℤ)
  | [] => some []
  | [_] => none
  | lo :: hi :: rest => (bytesToSamples rest).map (fun t => toSigned16 (lo + 256 * hi) :: t)

/-- `sum(s * s for s in samples)` (main.py line 54). -/
def sumSquares (samples : List ℤ) : ℤ :=
  (samples.map (fun s => s * s)).sum

/-- The RMS amplitude computed by main.py lines 50-57:
`sqrt(sum_squares / count)` for a frame of `count > 0` decoded samples, and `0`
for an empty frame (`count = 0`) or a frame on which `struct.unpack` raises
(the `except` clause sets `rms = 0`). -/
noncomputable def rms (pcm : List ℕ) : ℝ :=
  match bytesToSamples pcm with
  | none => 0
  | some samples =>
    if 0 < samples.length then
      Real.sqrt ((sumSquares samples : ℝ) / (samples.length : ℝ))
    else 0

/-- Computable decision of the comparison `rms > SILENCE_THRESHOLD`
(main.py line 73): for a frame of `N > 0` samples,
`sqrt(sum / N) > 500` iff `sum > 500 ^ 2 * N`.  The equivalence with `rms`
is proved in `loud_eq_true_iff` below; `write` uses this decision so that the
embedding stays executable. -/
def loud (pcm : List ℕ) : Bool :=
  match bytesToSamples pcm with
  | none => false
  | some samples => decide ((SILENCE_THRESHOLD : ℤ) ^ 2 * samples.length < sumSquares samples)

/-- One entry of `self.user_data` (main.py lines 62-66). -/
structure UserRecord where
  buffer : List ℕ
  last_spoken : ℚ
  processing : Bool
deriving DecidableEq, Repr

/-- The mutable state of a `ContinuousSink`: `self.user_data` as an
association list and `self.speaking_users` as a list used with set
semantics (main.py lines 38-39). -/
structure SinkState where
  user_data : List (ℕ × UserRecord)
  speaking_users : List ℕ
deriving DecidableEq, Repr

/-- Python dict lookup `self.user_data[uid]` / `uid in self.user_data`. -/
def lookupA : List (ℕ × UserRecord) → ℕ → Option UserRecord
  | [], _ => none
  | (k, v) :: t, uid => if k = uid then some v else lookupA t uid

/-- Python dict assignment `self.user_data[uid] = r`: replace in place, or
append when the key is absent. -/
def updateAssoc : List (ℕ × UserRecord) → ℕ → UserRecord → List (ℕ × UserRecord)
  | [], uid, r => [(uid, r)]
  | (k, v) :: t, uid, r => if k = uid then (uid, r) :: t else (k, v) :: updateAssoc t uid r

/-- `self.speaking_users.add(uid)` (Python set add). -/
def addUid (uid : ℕ) (l : List ℕ) : List ℕ :=
  if uid ∈ l then l else uid :: l

/-- `self.speaking_users.remove(uid)` (Python set remove; the caller has
checked membership). -/
def removeUid (uid : ℕ) : List ℕ → List ℕ
  | [] => []
  | v :: t => if v = uid then removeUid uid t else v :: removeUid uid t

/-- The record created on a speaker's first frame (main.py lines 62-66). -/
def defaultRecord (now : ℚ) : UserRecord :=
  { buffer := [], last_spoken := now, processing := false }

/-- `if user.id not in self.user_data: self.user_data[user.id] = {...}`
(main.py lines 61-66). -/
def createIfAbsent (s : SinkState) (uid : ℕ) (now : ℚ) : SinkState :=
  match lookupA s.user_data uid with
  | some _ => s
  | none => { s with user_data := updateAssoc s.user_data uid (defaultRecord now) }

/-- The flush point (main.py lines 83-96): the speaker has already been
removed here is done first (line 83), then the buffer-length check decides
whether a copy is dispatched with `processing := true` (lines 86-93), and the
buffer is cleared in every case (line 96). -/
def flushStep (s1 : SinkState) (uid : ℕ) (ur : UserRecord) :
    SinkState × Option (ℕ × List ℕ) :=
  if (ur.buffer.length : ℚ) > minDispatchBytes then
    ({ user_data := updateAssoc s1.user_data uid { ur with buffer := [], processing := true },
       speaking_users := removeUid uid s1.speaking_users },
     some (uid, ur.buffer))
  else
    ({ user_data := updateAssoc s1.user_data uid { ur with buffer := [] },
       speaking_users := removeUid uid s1.speaking_users },
     none)

/-- The silence branch (main.py lines 77-96): nothing happens unless the
speaker was marked speaking and the elapsed silence strictly exceeds
`SILENCE_DURATION`. -/
def silentStep (s1 : SinkState) (uid : ℕ) (ur : UserRecord) (now : ℚ) :
    SinkState × Option (ℕ × List ℕ) :=
  if uid ∈ s1.speaking_users then
    if now - ur.last_spoken > SILENCE_DURATION then flushStep s1 uid ur
    else (s1, none)
  else (s1, none)

/-- The loud branch (main.py lines 73-76): append the frame, stamp
`last_spoken`, mark the speaker as speaking. -/
def loudStep (s1 : SinkState) (uid : ℕ) (ur : UserRecord) (pcm : List ℕ) (now : ℚ) :
    SinkState × Option (ℕ × List ℕ) :=
  ({ user_data := updateAssoc s1.user_data uid
       { ur with buffer := ur.buffer ++ pcm, last_spoken := now },
     speaking_users := addUid uid s1.speaking_users },
   none)

/-- Main.py lines 68-96, after the record has been created: fetch the
record, drop the frame while `processing` is set, otherwise take the loud or
the silence branch.  The `none` case is unreachable because `write` always
creates the record first. -/
def processFrame (s1 : SinkState) (uid : ℕ) (pcm : List ℕ) (now : ℚ) :
    SinkState × Option (ℕ × List ℕ) :=
  match lookupA s1.user_data uid with
  | none => (s1, none)
  | some ur =>
    if ur.processing then (s1, none)
    else if loud pcm then loudStep s1 uid ur pcm now
    else silentStep s1 uid ur now

/-- `ContinuousSink.write` (main.py lines 44-96).  Inputs: the current state,
the frame's attributed speaker (`None` possible), the raw PCM bytes, the
current time `now = time.time()`, and the session-wide
`self.voice_client.is_playing()` flag.  Output: the new state and the
dispatched utterance, if any (`asyncio.run_coroutine_threadsafe` on
`process_audio(user, audio_copy)`, lines 90-93). -/
def write (s : SinkState) (user : Option ℕ) (pcm : List ℕ) (now : ℚ) (playing : Bool) :
    SinkState × Option (ℕ × List ℕ) :=
  match user with
  | none => (s, none)
  | some uid =>
    if playing then (s, none)
    else processFrame (createIfAbsent s uid now) uid pcm now

/-- Run a sequence of frames (speaker, pcm, now, playing) through `write`,
collecting every dispatched utterance in order. -/
def runWrites (s : SinkState) : List (Option ℕ × List ℕ × ℚ × Bool) →
    SinkState × List (ℕ × List ℕ)
  | [] => (s, [])
  | (u, pcm, now, playing) :: rest =>
    let out := write s u pcm now playing
    let tail := runWrites out.1 rest
    (tail.1, out.2.toList ++ tail.2)

/-- The `processing` flag the ingestion path consults for a speaker
(`user_record['processing']`, absent speakers read as `false`). -/
def procOf (s : SinkState) (uid : ℕ) : Bool :=
  match lookupA s.user_data uid with
  | some r => r.processing
  | none => false

/-- The `finally` block of `process_audio` (main.py lines 163-165):
`if user.id in self.user_data: self.user_data[user.id]['processing'] = False`. -/
def clearProcessing (s : SinkState) (uid : ℕ) : SinkState :=
  match lookupA s.user_data uid with
  | some r => { s with user_data := updateAssoc s.user_data uid { r with processing := false } }
  | none => s

/-- Outcomes of the external collaborators used by one `process_audio` run:
whether the WAV container write succeeds, the transcription result (`none`
models a raised exception), the chat completion result, and whether the
TTS/playback step succeeds. -/
structure Externals where
  encodeOk : Bool
  stt : Option String
  chat : Option String
  ttsOk : Bool
deriving DecidableEq, Repr

/-- The exit path a `process_audio` run takes. -/
inductive ProcOutcome
  | encodeFailed
  | sttFailed
  | emptyTranscript
  | chatFailed
  | ttsFailed
  | played
deriving DecidableEq, Repr

/-- `ContinuousSink.process_audio` (main.py lines 98-165), modelled by its
effect on the sink state.  Every exit path — the outer `except` catching a
container-encoding failure, the STT `except ... return`, the empty-transcript
`return`, the chat `except ... return`, the TTS `except` (which falls through
to the end of the `try`), and normal completion — runs the `finally` block,
which clears the speaker's `processing` flag.  The body performs no other
mutation of the sink state.  Being a total Lean function, no exception
escapes to the caller. -/
def process_audio (s : SinkState) (uid : ℕ) (ext : Externals) :
    SinkState × ProcOutcome :=
  if ext.encodeOk = false then (clearProcessing s uid, ProcOutcome.encodeFailed)
  else
    match ext.stt with
    | none => (clearProcessing s uid, ProcOutcome.sttFailed)
    | some t =>
      if t.trim = "" then (clearProcessing s uid, ProcOutcome.emptyTranscript)
      else
        match ext.chat with
        | none => (clearProcessing s uid, ProcOutcome.chatFailed)
        | some _ =>
          if ext.ttsOk then (clearProcessing s uid, ProcOutcome.played)
          else (clearProcessing s uid, ProcOutcome.ttsFailed)

/-- A frame of `n` identical 16-bit samples of value `1000` in little-endian
bytes (`1000 = 0x03E8`, so the byte pair is `232, 3`).  Its RMS is `1000`,
strictly above `SILENCE_THRESHOLD`; used as concrete loud input. -/
def loudFrame : ℕ → List ℕ
  | 0 => []
  | n + 1 => 232 :: 3 :: loudFrame n

/-- The sink state paired with the multiset of speaker ids whose dispatched
`process_audio` task has not yet finished (one list entry per outstanding
task). -/
structure SysState where
  sink : SinkState
  inflight : List ℕ
deriving DecidableEq, Repr

/-- An event of the concurrent system: a frame delivered to `write`, or the
completion (the `finally` block) of one outstanding `process_audio` task. -/
inductive SysEvent where
  | frame (user : Option ℕ) (pcm : List ℕ) (now : ℚ) (playing : Bool)
  | complete (uid : ℕ) (ext : Externals)
deriving DecidableEq, Repr

/-- One step of the system.  A frame event runs `write` and records the
dispatched task, if any; a completion event is only enabled when the speaker
has an outstanding task, and then applies the task's state effect and
retires it. -/
def stepSys (σ : SysState) : SysEvent → Option SysState
  | SysEvent.frame u pcm now playing =>
    let out := write σ.sink u pcm now playing
    some { sink := out.1,
           inflight := match out.2 with
             | some (uid, _) => uid :: σ.inflight
             | none => σ.inflight }
  | SysEvent.complete uid ext =>
    if uid ∈ σ.inflight then
      some { sink := (process_audio σ.sink uid ext).1, inflight := σ.inflight.erase uid }
    else none

/-- Run a list of system events from a state; `none` when a completion event
was not enabled. -/
def runSys (σ : SysState) : List SysEvent → Option SysState
  | [] => some σ
  | e :: es =>
    match stepSys σ e with
    | some σ' => runSys σ' es
    | none => none

/-- The state of a freshly constructed `ContinuousSink`: empty registry,
nobody speaking, no outstanding task (main.py lines 38-39). -/
def initSys : SysState :=
  { sink := { user_data := [], speaking_users := [] }, inflight := [] }

/-- The per-speaker mutual-exclusion invariant: at most one outstanding
`process_audio` task per speaker, and any speaker with an outstanding task
has `processing = true`. -/
def InvSys (σ : SysState) : Prop :=
  ∀ uid, σ.inflight.count uid ≤ 1 ∧ (uid ∈ σ.inflight → procOf σ.sink uid = true)

/-- Agreement of two registry entries up to behaviourally irrelevant detail:
the `last_spoken` stamp is only read while the speaker is marked speaking
(main.py line 81), and an absent entry behaves like a present entry with an
empty buffer and a clear `processing` flag for a speaker not marked
speaking. -/
def recAgree (sp : Prop) : Option UserRecord → Option UserRecord → Prop
  | none, none => True
  | some r, some r' =>
      r.buffer = r'.buffer ∧ r.processing = r'.processing ∧ (sp → r.last_spoken = r'.last_spoken)
  | none, some r' => r'.buffer = [] ∧ r'.processing = false ∧ ¬ sp
  | some r, none => r.buffer = [] ∧ r.processing = false ∧ ¬ sp

/-- Observational equivalence of sink states: same speaking set and
behaviourally agreeing registry entries.  `runWrites_obsEq` below shows the
dispatched utterances of equivalent states agree on every frame sequence. -/
def obsEq (s t : SinkState) : Prop :=
  s.speaking_users = t.speaking_users ∧
  ∀ uid, recAgree (uid ∈ s.speaking_users) (lookupA s.user_data uid) (lookupA t.user_data uid)

/-- Concrete registry entry for the flush witness: 96002 buffered bytes
(more than the 96000-byte dispatch minimum), last loud frame at time 0. -/
def c1r : UserRecord := { buffer := List.replicate 96002 0, last_spoken := 0, processing := false }

/-- Concrete sink state for the flush witness: speaker 3 is accumulating. -/
def c1s : SinkState := { user_data := [(3, c1r)], speaking_users := [3] }

/-- Concrete registry entry for the loud-frame witness. -/
def c7r : UserRecord := { buffer := [7, 7], last_spoken := 0, processing := false }

/-- Concrete sink state for the loud-frame witness. -/
def c7s : SinkState := { user_data := [(1, c7r)], speaking_users := [] }

/-- Concrete registry entry for the playback-suppression witness. -/
def c9r : UserRecord := { buffer := [], last_spoken := 0, processing := false }

/-- Concrete sink state for the playback-suppression witness. -/
def c9s : SinkState := { user_data := [(2, c9r)], speaking_users := [] }

/-- Concrete registry entry refuting the 48000-byte minimum: 48002 buffered
bytes, which exceed 48000 but not the actual 96000-byte minimum. -/
def c5r : UserRecord := { buffer := List.replicate 48002 0, last_spoken := 0, processing := false }

/-- Concrete sink state for the minimum-length claim: speaker 5 is
accumulating 48002 bytes. -/
def c5s : SinkState := { user_data := [(5, c5r)], speaking_users := [5] }

/-- Concrete sink state for the flag-release witness: speaker 4 has a task
outstanding (`processing = true`), speaker 9 is a bystander. -/
def c3s : SinkState :=
  { user_data := [(4, { buffer := [1], last_spoken := 0, processing := true }),
                  (9, { buffer := [2], last_spoken := 0, processing := false })],
    speaking_users := [] }

/-- Concrete external outcomes for the flag-release witness: the chat step
raises. -/
def c3ext : Externals := { encodeOk := true, stt := some "hello", chat := none, ttsOk := true }

/-- Concrete registry entry for the mutual-exclusion witness: 96004 buffered
bytes for speaker 8. -/
def c2r : UserRecord := { buffer := List.replicate 96004 0, last_spoken := 0, processing := false }

/-- Concrete sink state for the mutual-exclusion witness. -/
def c2s : SinkState := { user_data := [(8, c2r)], speaking_users := [8] }

/-- Concrete sink state for the silent-idle-frame witness: speaker 6 has a
registry entry, speaker 5 has none and is not speaking. -/
def c8s : SinkState :=
  { user_data := [(6, { buffer := [9], last_spoken := 0, processing := false })],
    speaking_users := [] }

/-! ### Association list and speaking-set lemmas -/

theorem lookupA_updateAssoc_self (l : List (ℕ × UserRecord)) (uid : ℕ) (r : UserRecord) :
    lookupA (updateAssoc l uid r) uid = some r := by
  induction l with
  | nil => simp [updateAssoc, lookupA]
  | cons hd t ih =>
    obtain ⟨k, v⟩ := hd
    by_cases hk : k = uid
    · simp [updateAssoc, hk, lookupA]
    · simp [updateAssoc, hk, lookupA, ih]

theorem lookupA_updateAssoc_ne (l : List (ℕ × UserRecord)) (uid v : ℕ) (r : UserRecord)
    (h : v ≠ uid) : lookupA (updateAssoc l uid r) v = lookupA l v := by
  have h' : uid ≠ v := fun hh => h hh.symm
  induction l with
  | nil => simp [updateAssoc, lookupA, h']
  | cons hd t ih =>
    obtain ⟨k, w⟩ := hd
    by_cases hk : k = uid
    · subst hk
      simp [updateAssoc, lookupA, h']
    · simp [updateAssoc, hk, lookupA, ih]

theorem updateAssoc_updateAssoc (l : List (ℕ × UserRecord)) (uid : ℕ) (r r' : UserRecord) :
    updateAssoc (updateAssoc l uid r) uid r' = updateAssoc l uid r' := by
  induction l with
  | nil => simp [updateAssoc]
  | cons hd t ih =>
    obtain ⟨k, v⟩ := hd
    by_cases hk : k = uid
    · simp [updateAssoc, hk]
    · simp [updateAssoc, hk, ih]

theorem mem_addUid {v uid : ℕ} {l : List ℕ} : v ∈ addUid uid l ↔ v = uid ∨ v ∈ l := by
  unfold addUid
  by_cases h : uid ∈ l
  · simp only [if_pos h]
    constructor
    · exact Or.inr
    · rintro (rfl | hv)
      · exact h
      · exact hv
  · simp [if_neg h]

theorem self_mem_addUid (uid : ℕ) (l : List ℕ) : uid ∈ addUid uid l :=
  mem_addUid.mpr (Or.inl rfl)

theorem addUid_of_mem {uid : ℕ} {l : List ℕ} (h : uid ∈ l) : addUid uid l = l := by
  simp [addUid, h]

theorem mem_removeUid {v uid : ℕ} {l : List ℕ} :
    v ∈ removeUid uid l ↔ v ∈ l ∧ v ≠ uid := by
  induction l with
  | nil => simp [removeUid]
  | cons hd t ih =>
    by_cases h : hd = uid
    · subst h
      rw [removeUid, if_pos rfl, ih]
      simp only [List.mem_cons]
      constructor
      · rintro ⟨hv, hne⟩; exact ⟨Or.inr hv, hne⟩
      · rintro ⟨(rfl | hv), hne⟩
        · exact absurd rfl hne
        · exact ⟨hv, hne⟩
    · rw [removeUid, if_neg h]
      simp only [List.mem_cons, ih]
      constructor
      · rintro (rfl | ⟨hv, hne⟩)
        · exact ⟨Or.inl rfl, fun hh => h hh⟩
        · exact ⟨Or.inr hv, hne⟩
      · rintro ⟨(rfl | hv), hne⟩
        · exact Or.inl rfl
        · exact Or.inr ⟨hv, hne⟩

theorem not_mem_removeUid_self (uid : ℕ) (l : List ℕ) : uid ∉ removeUid uid l := by
  intro h
  exact (mem_removeUid.mp h).2 rfl

/-! ### The RMS comparison bridge -/

theorem sumSquares_nonneg (samples : List ℤ) : 0 ≤ sumSquares samples := by
  unfold sumSquares
  apply List.sum_nonneg
  intro x hx
  obtain ⟨s, _, rfl⟩ := List.mem_map.mp hx
  exact mul_self_nonneg s

/-- The computable loudness decision agrees with the source's comparison
`rms > SILENCE_THRESHOLD` of main.py line 73. -/
theorem loud_eq_true_iff (pcm : List ℕ) :
    loud pcm = true ↔ rms pcm > (SILENCE_THRESHOLD : ℝ) := by
  unfold loud rms
  cases hdec : bytesToSamples pcm with
  | none =>
    simp [SILENCE_THRESHOLD]
  | some samples =>
    by_cases hlen : 0 < samples.length
    · simp only [if_pos hlen, decide_eq_true_eq]
      have hN : (0 : ℝ) < (samples.length : ℝ) := by exact_mod_cast hlen
      have hthr : (0 : ℝ) ≤ (SILENCE_THRESHOLD : ℝ) := by positivity
      rw [gt_iff_lt, Real.lt_sqrt hthr, lt_div_iff₀ hN]
      constructor
      · intro h
        have h' : (((SILENCE_THRESHOLD : ℤ) ^ 2 * (samples.length : ℤ) : ℤ) : ℝ) <
            ((sumSquares samples : ℤ) : ℝ) := by exact_mod_cast h
        push_cast at h' ⊢
        linarith
      · intro h
        have h' : (((SILENCE_THRESHOLD : ℤ) ^ 2 * (samples.length : ℤ) : ℤ) : ℝ) <
            ((sumSquares samples : ℤ) : ℝ) := by
          push_cast at h ⊢
          linarith
        exact_mod_cast h'
    · have hz : samples.length = 0 := Nat.eq_zero_of_not_pos hlen
      obtain rfl : samples = [] := List.length_eq_zero.mp hz
      simp [sumSquares, SILENCE_THRESHOLD]

/-- Contrapositive form used for the silence-branch claims. -/
theorem loud_eq_false_of_rms_le {pcm : List ℕ}
    (h : rms pcm ≤ (SILENCE_THRESHOLD : ℝ)) : loud pcm = false := by
  by_cases hl : loud pcm = true
  · exact absurd ((loud_eq_true_iff pcm).mp hl) (not_lt.mpr h)
  · exact Bool.eq_false_iff.mpr (fun hh => hl hh)

/-- Converse transport: a frame the decision procedure classifies as silent
has RMS at or below the threshold. -/
theorem rms_le_of_loud_eq_false {pcm : List ℕ} (h : loud pcm = false) :
    rms pcm ≤ (SILENCE_THRESHOLD : ℝ) := by
  by_contra hgt
  push_neg at hgt
  have hl := (loud_eq_true_iff pcm).mpr hgt
  rw [h] at hl
  exact Bool.false_ne_true hl

/-! ### Branch characterisations of `write` -/

theorem write_user_none (s : SinkState) (pcm : List ℕ) (now : ℚ) (playing : Bool) :
    write s none pcm now playing = (s, none) := rfl

theorem write_playing (s : SinkState) (uid : ℕ) (pcm : List ℕ) (now : ℚ) :
    write s (some uid) pcm now true = (s, none) := rfl

theorem write_not_playing (s : SinkState) (uid : ℕ) (pcm : List ℕ) (now : ℚ) :
    write s (some uid) pcm now false =
      processFrame (createIfAbsent s uid now) uid pcm now := rfl

theorem createIfAbsent_of_some {s : SinkState} {uid : ℕ} {r : UserRecord} (now : ℚ)
    (h : lookupA s.user_data uid = some r) : createIfAbsent s uid now = s := by
  unfold createIfAbsent
  rw [h]

theorem createIfAbsent_of_none {s : SinkState} {uid : ℕ} (now : ℚ)
    (h : lookupA s.user_data uid = none) :
    createIfAbsent s uid now =
      { s with user_data := updateAssoc s.user_data uid (defaultRecord now) } := by
  unfold createIfAbsent
  rw [h]

theorem processFrame_of_processing {s1 : SinkState} {uid : ℕ} {ur : UserRecord}
    (pcm : List ℕ) (now : ℚ) (h : lookupA s1.user_data uid = some ur)
    (hp : ur.processing = true) : processFrame s1 uid pcm now = (s1, none) := by
  unfold processFrame
  rw [h]
  simp [hp]

theorem processFrame_of_loud {s1 : SinkState} {uid : ℕ} {ur : UserRecord}
    {pcm : List ℕ} (now : ℚ) (h : lookupA s1.user_data uid = some ur)
    (hp : ur.processing = false) (hl : loud pcm = true) :
    processFrame s1 uid pcm now = loudStep s1 uid ur pcm now := by
  unfold processFrame
  rw [h]
  simp [hp, hl]

theorem processFrame_of_silent {s1 : SinkState} {uid : ℕ} {ur : UserRecord}
    {pcm : List ℕ} (now : ℚ) (h : lookupA s1.user_data uid = some ur)
    (hp : ur.processing = false) (hl : loud pcm = false) :
    processFrame s1 uid pcm now = silentStep s1 uid ur now := by
  unfold processFrame
  rw [h]
  simp [hp, hl]

theorem silentStep_not_speaking {s1 : SinkState} {uid : ℕ} (ur : UserRecord) (now : ℚ)
    (h : uid ∉ s1.speaking_users) : silentStep s1 uid ur now = (s1, none) := by
  unfold silentStep
  rw [if_neg h]

theorem silentStep_short {s1 : SinkState} {uid : ℕ} {ur : UserRecord} {now : ℚ}
    (h : uid ∈ s1.speaking_users) (ht : ¬ now - ur.last_spoken > SILENCE_DURATION) :
    silentStep s1 uid ur now = (s1, none) := by
  unfold silentStep
  rw [if_pos h, if_neg ht]

theorem silentStep_flush {s1 : SinkState} {uid : ℕ} {ur : UserRecord} {now : ℚ}
    (h : uid ∈ s1.speaking_users) (ht : now - ur.last_spoken > SILENCE_DURATION) :
    silentStep s1 uid ur now = flushStep s1 uid ur := by
  unfold silentStep
  rw [if_pos h, if_pos ht]

theorem flushStep_big {s1 : SinkState} {uid : ℕ} {ur : UserRecord}
    (h : (ur.buffer.length : ℚ) > minDispatchBytes) :
    flushStep s1 uid ur =
      ({ user_data := updateAssoc s1.user_data uid { ur with buffer := [], processing := true },
         speaking_users := removeUid uid s1.speaking_users },
       some (uid, ur.buffer)) := by
  unfold flushStep
  rw [if_pos h]

theorem flushStep_small {s1 : SinkState} {uid : ℕ} {ur : UserRecord}
    (h : ¬ (ur.buffer.length : ℚ) > minDispatchBytes) :
    flushStep s1 uid ur =
      ({ user_data := updateAssoc s1.user_data uid { ur with buffer := [] },
         speaking_users := removeUid uid s1.speaking_users },
       none) := by
  unfold flushStep
  rw [if_neg h]

/-- A frame for a speaker whose `processing` flag is set is dropped with no
state change at all (main.py lines 70-71), for any playback state. -/
theorem write_of_procOf_true {s : SinkState} {uid : ℕ} (pcm : List ℕ) (now : ℚ)
    (playing : Bool) (h : procOf s uid = true) :
    write s (some uid) pcm now playing = (s, none) := by
  unfold procOf at h
  cases hur : lookupA s.user_data uid with
  | none => rw [hur] at h; exact absurd h (by simp)
  | some r =>
    rw [hur] at h
    cases playing with
    | true => exact write_playing s uid pcm now
    | false =>
      rw [write_not_playing, createIfAbsent_of_some now hur,
        processFrame_of_processing pcm now hur h]

/-! ### Concrete frame evaluation lemmas -/

theorem rms_nil : rms [] = 0 := by
  simp [rms, bytesToSamples]

theorem bytesToSamples_loudFrame (n : ℕ) :
    bytesToSamples (loudFrame n) = some (List.replicate n 1000) := by
  induction n with
  | zero => rfl
  | succ k ih =>
    rw [loudFrame, bytesToSamples, ih]
    norm_num [toSigned16, List.replicate_succ]

theorem length_loudFrame (n : ℕ) : (loudFrame n).length = 2 * n := by
  induction n with
  | zero => rfl
  | succ k ih =>
    rw [loudFrame]
    simp only [List.length_cons, ih]
    omega

theorem sumSquares_replicate (n : ℕ) (c : ℤ) :
    sumSquares (List.replicate n c) = n * (c * c) := by
  induction n with
  | zero => simp [sumSquares]
  | succ k ih =>
    rw [List.replicate_succ]
    unfold sumSquares at ih ⊢
    rw [List.map_cons, List.sum_cons, ih]
    push_cast
    ring

theorem loud_loudFrame {n : ℕ} (h : 0 < n) : loud (loudFrame n) = true := by
  unfold loud
  rw [bytesToSamples_loudFrame]
  simp only [decide_eq_true_eq, List.length_replicate, sumSquares_replicate]
  have hn : (1 : ℤ) ≤ (n : ℤ) := by exact_mod_cast h
  have : (SILENCE_THRESHOLD : ℤ) ^ 2 = 250000 := by norm_num [SILENCE_THRESHOLD]
  rw [this]
  nlinarith

theorem rms_loudFrame_gt {n : ℕ} (h : 0 < n) :
    rms (loudFrame n) > (SILENCE_THRESHOLD : ℝ) :=
  (loud_eq_true_iff (loudFrame n)).mp (loud_loudFrame h)

/-- A single sample of value exactly `500` has RMS exactly
`SILENCE_THRESHOLD` (`500 = 0x01F4`, bytes `244, 1`). -/
theorem rms_single500 : rms [244, 1] = (SILENCE_THRESHOLD : ℝ) := by
  have h1 : rms [244, 1] =
      Real.sqrt ((sumSquares [(500 : ℤ)] : ℝ) / (([(500 : ℤ)].length : ℕ) : ℝ)) := rfl
  rw [h1]
  have h2 : ((sumSquares [(500 : ℤ)] : ℤ) : ℝ) / (([(500 : ℤ)].length : ℕ) : ℝ) =
      (500 : ℝ) ^ 2 := by
    norm_num [sumSquares]
  rw [h2, Real.sqrt_sq (by norm_num : (0 : ℝ) ≤ 500)]
  norm_num [SILENCE_THRESHOLD]

/-! ### The claims -/

/-- C10: a frame delivered with no attributed speaker (`user is None`,
main.py line 45) is discarded totally: the state is unchanged, nothing is
dispatched, no registry entry appears, and `write` is total (no error). -/
theorem claim10_unattributed_frame_discarded (s : SinkState) (pcm : List ℕ) (now : ℚ)
    (playing : Bool) : write s none pcm now playing = (s, none) :=
  write_user_none s pcm now playing

/-- C9: while playback is active, every frame of every speaker is discarded
with no state change at all — before the RMS of the frame is even consulted,
and session-wide rather than per speaker (main.py line 45); with playback
inactive a loud frame is acted on again (it is appended via the loud
branch). -/
theorem claim9_playback_suppression :
    (∀ (s : SinkState) (user : Option ℕ) (pcm : List ℕ) (now : ℚ),
        write s user pcm now true = (s, none)) ∧
    (∀ (s : SinkState) (uid : ℕ) (pcm : List ℕ) (now : ℚ) (ur : UserRecord),
        lookupA s.user_data uid = some ur → ur.processing = false →
        rms pcm > (SILENCE_THRESHOLD : ℝ) →
        write s (some uid) pcm now false = loudStep s uid ur pcm now) := by
  constructor
  · intro s user pcm now
    cases user with
    | none => exact write_user_none s pcm now true
    | some uid => exact write_playing s uid pcm now
  · intro s uid pcm now ur hur hp hrms
    rw [write_not_playing, createIfAbsent_of_some now hur,
      processFrame_of_loud now hur hp ((loud_eq_true_iff pcm).mpr hrms)]

/-- Witness for C9 at concrete inputs: playback suppresses a loud frame for
speaker 2; with playback inactive the same frame is appended. -/
theorem claim9_witness :
    write c9s (some 2) [232, 3] 1 true = (c9s, none) ∧
    lookupA c9s.user_data 2 = some c9r ∧
    c9r.processing = false ∧
    rms [232, 3] > (SILENCE_THRESHOLD : ℝ) ∧
    write c9s (some 2) [232, 3] 1 false = loudStep c9s 2 c9r [232, 3] 1 := by
  have hrms : rms [232, 3] > (SILENCE_THRESHOLD : ℝ) := by
    have : ([232, 3] : List ℕ) = loudFrame 1 := rfl
    rw [this]
    exact rms_loudFrame_gt (by norm_num)
  exact ⟨claim9_playback_suppression.1 c9s (some 2) [232, 3] 1, rfl, rfl, hrms,
    claim9_playback_suppression.2 c9s 2 [232, 3] 1 c9r rfl rfl hrms⟩

/-- C7: a frame with RMS strictly above the threshold, for a speaker who is
not `processing` and with playback inactive, is appended to that speaker's
buffer, `last_spoken` is stamped with `now`, and the speaker is marked
speaking (main.py lines 73-76); a frame with RMS exactly equal to the
threshold takes the silence branch instead (line 73 is a strict
comparison). -/
theorem claim7_loud_branch (s : SinkState) (uid : ℕ) (pcm : List ℕ) (now : ℚ)
    (ur : UserRecord) (hur : lookupA s.user_data uid = some ur)
    (hp : ur.processing = false) :
    (rms pcm > (SILENCE_THRESHOLD : ℝ) →
      write s (some uid) pcm now false =
        ({ user_data := updateAssoc s.user_data uid
             { ur with buffer := ur.buffer ++ pcm, last_spoken := now },
           speaking_users := addUid uid s.speaking_users }, none) ∧
      lookupA (write s (some uid) pcm now false).1.user_data uid =
        some { ur with buffer := ur.buffer ++ pcm, last_spoken := now } ∧
      uid ∈ (write s (some uid) pcm now false).1.speaking_users) ∧
    (rms pcm = (SILENCE_THRESHOLD : ℝ) →
      write s (some uid) pcm now false = silentStep s uid ur now) := by
  constructor
  · intro hrms
    have hw : write s (some uid) pcm now false = loudStep s uid ur pcm now := by
      rw [write_not_playing, createIfAbsent_of_some now hur,
        processFrame_of_loud now hur hp ((loud_eq_true_iff pcm).mpr hrms)]
    refine ⟨hw, ?_, ?_⟩
    · rw [hw]
      exact lookupA_updateAssoc_self s.user_data uid _
    · rw [hw]
      exact self_mem_addUid uid s.speaking_users
  · intro hrms
    have hl : loud pcm = false := loud_eq_false_of_rms_le (le_of_eq hrms)
    rw [write_not_playing, createIfAbsent_of_some now hur,
      processFrame_of_silent now hur hp hl]

/-- Witness for C7 at concrete inputs: speaker 1, a loud frame (RMS 1000)
and a frame of RMS exactly 500. -/
theorem claim7_witness :
    lookupA c7s.user_data 1 = some c7r ∧
    c7r.processing = false ∧
    rms [232, 3] > (SILENCE_THRESHOLD : ℝ) ∧
    lookupA (write c7s (some 1) [232, 3] 2 false).1.user_data 1 =
      some { c7r with buffer := c7r.buffer ++ [232, 3], last_spoken := 2 } ∧
    1 ∈ (write c7s (some 1) [232, 3] 2 false).1.speaking_users ∧
    rms [244, 1] = (SILENCE_THRESHOLD : ℝ) ∧
    write c7s (some 1) [244, 1] 2 false = silentStep c7s 1 c7r 2 := by
  have hrms : rms [232, 3] > (SILENCE_THRESHOLD : ℝ) := by
    have : ([232, 3] : List ℕ) = loudFrame 1 := rfl
    rw [this]
    exact rms_loudFrame_gt (by norm_num)
  have h1 := (claim7_loud_branch c7s 1 [232, 3] 2 c7r rfl rfl).1 hrms
  have h2 := (claim7_loud_branch c7s 1 [244, 1] 2 c7r rfl rfl).2 rms_single500
  exact ⟨rfl, rfl, hrms, h1.2.1, h1.2.2, rms_single500, h2⟩

/-- C1: a frame with RMS at or below the threshold, arriving for a speaker
marked speaking (and not `processing`, with playback inactive) after more
than `SILENCE_DURATION` of silence, is a flush point (main.py lines 77-96):
the speaker is unmarked; if the buffer is longer than
`MIN_AUDIO_LENGTH * 48000 * 2 * 2` bytes an immutable copy is dispatched
and `processing` is set `true`; in either case the buffer is cleared. -/
theorem claim1_flush (s : SinkState) (uid : ℕ) (pcm : List ℕ) (now : ℚ)
    (ur : UserRecord) (hur : lookupA s.user_data uid = some ur)
    (hp : ur.processing = false) (hspk : uid ∈ s.speaking_users)
    (hrms : rms pcm ≤ (SILENCE_THRESHOLD : ℝ))
    (hel : now - ur.last_spoken > SILENCE_DURATION) :
    uid ∉ (write s (some uid) pcm now false).1.speaking_users ∧
    ((ur.buffer.length : ℚ) > minDispatchBytes →
      (write s (some uid) pcm now false).2 = some (uid, ur.buffer) ∧
      lookupA (write s (some uid) pcm now false).1.user_data uid =
        some { ur with buffer := [], processing := true }) ∧
    (¬ (ur.buffer.length : ℚ) > minDispatchBytes →
      (write s (some uid) pcm now false).2 = none ∧
      lookupA (write s (some uid) pcm now false).1.user_data uid =
        some { ur with buffer := [] }) := by
  have hw : write s (some uid) pcm now false = flushStep s uid ur := by
    rw [write_not_playing, createIfAbsent_of_some now hur,
      processFrame_of_silent now hur hp (loud_eq_false_of_rms_le hrms),
      silentStep_flush hspk hel]
  refine ⟨?_, ?_, ?_⟩
  · by_cases hb : (ur.buffer.length : ℚ) > minDispatchBytes
    · rw [hw, flushStep_big hb]
      exact not_mem_removeUid_self uid s.speaking_users
    · rw [hw, flushStep_small hb]
      exact not_mem_removeUid_self uid s.speaking_users
  · intro hb
    rw [hw, flushStep_big hb]
    exact ⟨rfl, lookupA_updateAssoc_self s.user_data uid _⟩
  · intro hb
    rw [hw, flushStep_small hb]
    exact ⟨rfl, lookupA_updateAssoc_self s.user_data uid _⟩

/-- Witness for C1 at concrete inputs: speaker 3 holds 96002 buffered bytes,
an empty (hence silent) frame arrives after 2 seconds of silence; the copy
is dispatched, `processing` is set, the buffer is cleared, the speaker is
unmarked. -/
theorem claim1_witness :
    lookupA c1s.user_data 3 = some c1r ∧
    c1r.processing = false ∧
    3 ∈ c1s.speaking_users ∧
    rms [] ≤ (SILENCE_THRESHOLD : ℝ) ∧
    (2 : ℚ) - c1r.last_spoken > SILENCE_DURATION ∧
    ((c1r.buffer.length : ℚ) > minDispatchBytes) ∧
    3 ∉ (write c1s (some 3) [] 2 false).1.speaking_users ∧
    (write c1s (some 3) [] 2 false).2 = some (3, c1r.buffer) ∧
    lookupA (write c1s (some 3) [] 2 false).1.user_data 3 =
      some { c1r with buffer := [], processing := true } := by
  have hrms : rms [] ≤ (SILENCE_THRESHOLD : ℝ) := by
    rw [rms_nil]
    norm_num
  have hel : (2 : ℚ) - c1r.last_spoken > SILENCE_DURATION := by
    norm_num [c1r, SILENCE_DURATION]
  have hb : ((c1r.buffer.length : ℚ) > minDispatchBytes) := by
    simp only [c1r, List.length_replicate, minDispatchBytes, MIN_AUDIO_LENGTH]
    norm_num
  have h := claim1_flush c1s 3 [] 2 c1r rfl rfl (by simp [c1s]) hrms hel
  exact ⟨rfl, rfl, by simp [c1s], hrms, hel, hb, h.1, (h.2.1 hb).1, (h.2.1 hb).2⟩

/-- C5, counterexample to the stated 48000-byte minimum: a flush of a
48002-byte buffer — strictly more than 48000 bytes — is silently discarded
(nothing dispatched, buffer cleared), because the code's minimum
(main.py line 86) is `0.5 * 48000 * 2 * 2 = 96000` bytes, not 48000. -/
theorem claim5_counterexample :
    c5r.buffer.length = 48002 ∧ (48002 : ℚ) > 48000 ∧
    (write c5s (some 5) [] 2 false).2 = none ∧
    lookupA (write c5s (some 5) [] 2 false).1.user_data 5 = some { c5r with buffer := [] } := by
  have hlen : c5r.buffer.length = 48002 := by
    simp only [c5r, List.length_replicate]
  have hb : ¬ (c5r.buffer.length : ℚ) > minDispatchBytes := by
    rw [hlen]
    norm_num [minDispatchBytes, MIN_AUDIO_LENGTH]
  have hur : lookupA c5s.user_data 5 = some c5r := rfl
  have hw : write c5s (some 5) [] 2 false = flushStep c5s 5 c5r := by
    rw [write_not_playing, createIfAbsent_of_some 2 hur,
      processFrame_of_silent 2 hur rfl (by decide),
      silentStep_flush (by simp [c5s]) (by norm_num [c5r, SILENCE_DURATION])]
  rw [hw, flushStep_small hb]
  refine ⟨hlen, by norm_num, rfl, ?_⟩
  exact lookupA_updateAssoc_self c5s.user_data 5 _

/-- C5 as amended: under the default configuration the minimum is
`MIN_AUDIO_LENGTH * 48000 * 2 * 2 = 96000` bytes (0.5 s at 192000 bytes/s
for 48 kHz stereo 16-bit PCM); a flush dispatches the buffer exactly when
its length strictly exceeds 96000 bytes, and otherwise discards it silently
(cleared, processor never invoked). -/
theorem claim5_amended (s : SinkState) (uid : ℕ) (pcm : List ℕ) (now : ℚ)
    (ur : UserRecord) (hur : lookupA s.user_data uid = some ur)
    (hp : ur.processing = false) (hspk : uid ∈ s.speaking_users)
    (hrms : rms pcm ≤ (SILENCE_THRESHOLD : ℝ))
    (hel : now - ur.last_spoken > SILENCE_DURATION) :
    minDispatchBytes = 96000 ∧
    ((ur.buffer.length : ℚ) > 96000 →
      (write s (some uid) pcm now false).2 = some (uid, ur.buffer)) ∧
    ((ur.buffer.length : ℚ) ≤ 96000 →
      (write s (some uid) pcm now false).2 = none ∧
      lookupA (write s (some uid) pcm now false).1.user_data uid =
        some { ur with buffer := [] }) := by
  have hmin : minDispatchBytes = 96000 := by
    norm_num [minDispatchBytes, MIN_AUDIO_LENGTH]
  have hw : write s (some uid) pcm now false = flushStep s uid ur := by
    rw [write_not_playing, createIfAbsent_of_some now hur,
      processFrame_of_silent now hur hp (loud_eq_false_of_rms_le hrms),
      silentStep_flush hspk hel]
  refine ⟨hmin, ?_, ?_⟩
  · intro hb
    rw [hw, flushStep_big (by rw [hmin]; exact hb)]
  · intro hb
    rw [hw, flushStep_small (by rw [hmin]; exact not_lt.mpr hb)]
    exact ⟨rfl, lookupA_updateAssoc_self s.user_data uid _⟩

/-- Witness for the amended C5 at concrete inputs: the 48002-byte buffer of
speaker 5 is below the 96000-byte minimum, so its flush dispatches
nothing. -/
theorem claim5_witness :
    lookupA c5s.user_data 5 = some c5r ∧
    c5r.processing = false ∧
    5 ∈ c5s.speaking_users ∧
    rms [] ≤ (SILENCE_THRESHOLD : ℝ) ∧
    (2 : ℚ) - c5r.last_spoken > SILENCE_DURATION ∧
    (c5r.buffer.length : ℚ) ≤ 96000 ∧
    (write c5s (some 5) [] 2 false).2 = none := by
  have hrms : rms [] ≤ (SILENCE_THRESHOLD : ℝ) := by
    rw [rms_nil]
    norm_num
  have hel : (2 : ℚ) - c5r.last_spoken > SILENCE_DURATION := by
    norm_num [c5r, SILENCE_DURATION]
  have hb : (c5r.buffer.length : ℚ) ≤ 96000 := by
    simp only [c5r, List.length_replicate]
    norm_num
  have h := claim5_amended c5s 5 [] 2 c5r rfl rfl (by simp [c5s]) hrms hel
  exact ⟨rfl, rfl, by simp [c5s], hrms, hel, hb, (h.2.2 hb).1⟩

/-- C3: `process_audio` releases the owning speaker's `processing` flag on
every exit path — container-encoding failure, STT failure, empty transcript,
chat failure, TTS/playback failure, and success (the `finally` block,
main.py lines 163-165) — and touches no other speaker's entry and not the
speaking set.  As a total function it raises nothing to the ingestion
path. -/
theorem claim3_flag_release (s : SinkState) (uid : ℕ) (ext : Externals) :
    (process_audio s uid ext).1 = clearProcessing s uid ∧
    procOf (process_audio s uid ext).1 uid = false ∧
    (∀ v, v ≠ uid →
      lookupA (process_audio s uid ext).1.user_data v = lookupA s.user_data v) ∧
    (process_audio s uid ext).1.speaking_users = s.speaking_users := by
  have h1 : (process_audio s uid ext).1 = clearProcessing s uid := by
    unfold process_audio
    obtain ⟨enc, stt, chat, tts⟩ := ext
    cases enc <;> cases stt <;> cases chat <;> cases tts <;>
      simp only [] <;> (repeat' split) <;> rfl
  have h2 : procOf (clearProcessing s uid) uid = false := by
    unfold clearProcessing procOf
    cases h : lookupA s.user_data uid with
    | none => rw [h]
    | some r => simp [lookupA_updateAssoc_self]
  have h3 : ∀ v, v ≠ uid →
      lookupA (clearProcessing s uid).user_data v = lookupA s.user_data v := by
    intro v hv
    unfold clearProcessing
    cases h : lookupA s.user_data uid with
    | none => rfl
    | some r => exact lookupA_updateAssoc_ne s.user_data uid v _ hv
  have h4 : (clearProcessing s uid).speaking_users = s.speaking_users := by
    unfold clearProcessing
    cases lookupA s.user_data uid <;> rfl
  rw [h1]
  exact ⟨rfl, h2, h3, h4⟩

/-- Witness for C3 at concrete inputs: speaker 4's chat step fails; the flag
is released and bystander speaker 9 is untouched. -/
theorem claim3_witness :
    (process_audio c3s 4 c3ext).1 = clearProcessing c3s 4 ∧
    procOf (process_audio c3s 4 c3ext).1 4 = false ∧
    lookupA (process_audio c3s 4 c3ext).1.user_data 9 = lookupA c3s.user_data 9 ∧
    (process_audio c3s 4 c3ext).1.speaking_users = c3s.speaking_users := by
  have h := claim3_flag_release c3s 4 c3ext
  exact ⟨h.1, h.2.1, h.2.2.1 9 (by norm_num), h.2.2.2⟩

/-! ### Decode totality on even-length frames -/

theorem bytesToSamples_even : ∀ (pcm : List ℕ), pcm.length % 2 = 0 →
    ∃ samples, bytesToSamples pcm = some samples ∧ samples.length = pcm.length / 2
  | [], _ => ⟨[], rfl, rfl⟩
  | [_], h => by simp at h
  | lo :: hi :: rest, h => by
    have h' : rest.length % 2 = 0 := by
      simp only [List.length_cons] at h
      omega
    obtain ⟨t, ht, hlen⟩ := bytesToSamples_even rest h'
    refine ⟨toSigned16 (lo + 256 * hi) :: t, ?_, ?_⟩
    · rw [bytesToSamples, ht]
      rfl
    · simp only [List.length_cons, hlen]
      omega

theorem bytesToSamples_odd : ∀ (pcm : List ℕ), pcm.length % 2 = 1 →
    bytesToSamples pcm = none
  | [], h => by simp at h
  | [_], _ => rfl
  | lo :: hi :: rest, h => by
    have h' : rest.length % 2 = 1 := by
      simp only [List.length_cons] at h
      omega
    rw [bytesToSamples, bytesToSamples_odd rest h']
    rfl

/-- C6: the RMS estimator returns `sqrt(sum(sample_i^2) / N)` over the `N`
decoded 16-bit signed samples (channels interleaved, treated uniformly, and
every even-length frame decodes); an empty frame gives 0; an odd-length
frame — the only way `struct.unpack` can fail on a `bytes` input of the
computed format — gives 0 without any error reaching the caller, and is
therefore classified as silence. -/
theorem claim6_rms_estimator (pcm : List ℕ) :
    (∀ samples, bytesToSamples pcm = some samples → 0 < samples.length →
      rms pcm = Real.sqrt ((sumSquares samples : ℝ) / (samples.length : ℝ))) ∧
    (pcm.length % 2 = 0 →
      ∃ samples, bytesToSamples pcm = some samples ∧ samples.length = pcm.length / 2) ∧
    (pcm.length % 2 = 1 → bytesToSamples pcm = none) ∧
    (bytesToSamples pcm = none → rms pcm = 0 ∧ loud pcm = false) ∧
    (pcm = [] → rms pcm = 0) := by
  refine ⟨?_, bytesToSamples_even pcm, bytesToSamples_odd pcm, ?_, ?_⟩
  · intro samples hdec hpos
    unfold rms
    rw [hdec]
    simp [hpos]
  · intro hdec
    unfold rms loud
    rw [hdec]
    exact ⟨rfl, rfl⟩
  · intro h
    subst h
    exact rms_nil

/-- Witness for C6 at concrete inputs: the two-byte frame `[232, 3]` decodes
to the single sample 1000 and gets the sqrt formula; the odd one-byte frame
`[1]` fails decoding, has RMS 0, and counts as silence. -/
theorem claim6_witness :
    rms [232, 3] = Real.sqrt ((sumSquares [(1000 : ℤ)] : ℝ) / (([(1000 : ℤ)].length : ℕ) : ℝ)) ∧
    bytesToSamples [1] = none ∧ rms [1] = 0 ∧ loud [1] = false := by
  have h1 := (claim6_rms_estimator [232, 3]).1 [(1000 : ℤ)] (by decide) (by decide)
  have h3 := (claim6_rms_estimator [1]).2.2.1 (by decide)
  have h4 := (claim6_rms_estimator [1]).2.2.2.1 h3
  exact ⟨h1, h3, h4.1, h4.2⟩

/-! ### `process_audio` state effect and `procOf` transport -/

theorem process_audio_fst (s : SinkState) (uid : ℕ) (ext : Externals) :
    (process_audio s uid ext).1 = clearProcessing s uid := by
  unfold process_audio
  obtain ⟨enc, stt, chat, tts⟩ := ext
  cases enc <;> cases stt <;> cases chat <;> cases tts <;>
    simp only [] <;> (repeat' split) <;> rfl

theorem procOf_clearProcessing_self (s : SinkState) (uid : ℕ) :
    procOf (clearProcessing s uid) uid = false := by
  unfold clearProcessing procOf
  cases h : lookupA s.user_data uid with
  | none => rw [h]
  | some r => simp [lookupA_updateAssoc_self]

theorem lookupA_clearProcessing_ne (s : SinkState) (uid v : ℕ) (hv : v ≠ uid) :
    lookupA (clearProcessing s uid).user_data v = lookupA s.user_data v := by
  unfold clearProcessing
  cases h : lookupA s.user_data uid with
  | none => rfl
  | some r => exact lookupA_updateAssoc_ne s.user_data uid v _ hv

theorem speaking_clearProcessing (s : SinkState) (uid : ℕ) :
    (clearProcessing s uid).speaking_users = s.speaking_users := by
  unfold clearProcessing
  cases lookupA s.user_data uid <;> rfl

theorem procOf_clearProcessing_ne (s : SinkState) (uid v : ℕ) (hv : v ≠ uid) :
    procOf (clearProcessing s uid) v = procOf s v := by
  unfold procOf
  rw [lookupA_clearProcessing_ne s uid v hv]

theorem procOf_createIfAbsent (s : SinkState) (uid : ℕ) (now : ℚ) (v : ℕ) :
    procOf (createIfAbsent s uid now) v = procOf s v := by
  unfold createIfAbsent
  cases h : lookupA s.user_data uid with
  | some r => rfl
  | none =>
    by_cases hv : v = uid
    · subst hv
      simp [procOf, lookupA_updateAssoc_self, h, defaultRecord]
    · simp [procOf, lookupA_updateAssoc_ne _ _ _ _ hv]

/-- Effect of one `processFrame` call on the `processing` flags: either no
dispatch and all flags unchanged, or a dispatch for the invoked speaker,
whose flag goes from `false` to `true` while every other flag is
unchanged. -/
theorem processFrame_procOf (s1 : SinkState) (uid : ℕ) (pcm : List ℕ) (now : ℚ) :
    ((processFrame s1 uid pcm now).2 = none ∧
      ∀ v, procOf (processFrame s1 uid pcm now).1 v = procOf s1 v) ∨
    (∃ a, (processFrame s1 uid pcm now).2 = some (uid, a) ∧
      procOf s1 uid = false ∧ procOf (processFrame s1 uid pcm now).1 uid = true ∧
      ∀ v, v ≠ uid → procOf (processFrame s1 uid pcm now).1 v = procOf s1 v) := by
  cases hlu : lookupA s1.user_data uid with
  | none =>
    left
    unfold processFrame
    rw [hlu]
    exact ⟨rfl, fun v => rfl⟩
  | some ur =>
    by_cases hp : ur.processing = true
    · left
      rw [processFrame_of_processing pcm now hlu hp]
      exact ⟨rfl, fun v => rfl⟩
    · have hp' : ur.processing = false := by
        cases h : ur.processing
        · rfl
        · exact absurd h hp
      by_cases hl : loud pcm = true
      · left
        rw [processFrame_of_loud now hlu hp' hl]
        refine ⟨rfl, fun v => ?_⟩
        by_cases hv : v = uid
        · subst hv
          simp [loudStep, procOf, lookupA_updateAssoc_self, hlu]
        · simp [loudStep, procOf, lookupA_updateAssoc_ne _ _ _ _ hv]
      · have hl' : loud pcm = false := by
          cases h : loud pcm
          · rfl
          · exact absurd h hl
        rw [processFrame_of_silent now hlu hp' hl']
        by_cases hs : uid ∈ s1.speaking_users
        · by_cases ht : now - ur.last_spoken > SILENCE_DURATION
          · rw [silentStep_flush hs ht]
            by_cases hb : (ur.buffer.length : ℚ) > minDispatchBytes
            · right
              rw [flushStep_big hb]
              refine ⟨ur.buffer, rfl, ?_, ?_, fun v hv => ?_⟩
              · unfold procOf
                rw [hlu]
                exact hp'
              · simp [procOf, lookupA_updateAssoc_self]
              · simp [procOf, lookupA_updateAssoc_ne _ _ _ _ hv]
            · left
              rw [flushStep_small hb]
              refine ⟨rfl, fun v => ?_⟩
              by_cases hv : v = uid
              · subst hv
                simp [procOf, lookupA_updateAssoc_self, hlu]
              · simp [procOf, lookupA_updateAssoc_ne _ _ _ _ hv]
          · rw [silentStep_short hs ht]
            exact Or.inl ⟨rfl, fun v => rfl⟩
        · rw [silentStep_not_speaking ur now hs]
          exact Or.inl ⟨rfl, fun v => rfl⟩

/-- Effect of one `write` call on the `processing` flags. -/
theorem write_procOf (s : SinkState) (u : Option ℕ) (pcm : List ℕ) (now : ℚ)
    (playing : Bool) :
    ((write s u pcm now playing).2 = none ∧
      ∀ v, procOf (write s u pcm now playing).1 v = procOf s v) ∨
    (∃ uid a, u = some uid ∧ (write s u pcm now playing).2 = some (uid, a) ∧
      procOf s uid = false ∧ procOf (write s u pcm now playing).1 uid = true ∧
      ∀ v, v ≠ uid → procOf (write s u pcm now playing).1 v = procOf s v) := by
  cases u with
  | none => exact Or.inl ⟨rfl, fun v => rfl⟩
  | some uid =>
    cases playing with
    | true => exact Or.inl ⟨rfl, fun v => rfl⟩
    | false =>
      rw [write_not_playing]
      rcases processFrame_procOf (createIfAbsent s uid now) uid pcm now with
        ⟨h2, hv⟩ | ⟨a, h2, hfalse, htrue, hv⟩
      · exact Or.inl ⟨h2, fun v => (hv v).trans (procOf_createIfAbsent s uid now v)⟩
      · refine Or.inr ⟨uid, a, rfl, h2, ?_, htrue, fun v hvne => ?_⟩
        · rw [← procOf_createIfAbsent s uid now uid]
          exact hfalse
        · exact (hv v hvne).trans (procOf_createIfAbsent s uid now v)

/-! ### The mutual-exclusion invariant -/

theorem invSys_init : InvSys initSys := by
  intro uid
  refine ⟨?_, ?_⟩
  · simp [initSys]
  · intro h
    simp [initSys] at h

theorem stepSys_preserves {σ σ' : SysState} (hInv : InvSys σ) {e : SysEvent}
    (h : stepSys σ e = some σ') : InvSys σ' := by
  cases e with
  | frame u pcm now p =>
    have h' : ({ sink := (write σ.sink u pcm now p).1,
                 inflight := match (write σ.sink u pcm now p).2 with
                   | some (uid, _) => uid :: σ.inflight
                   | none => σ.inflight } : SysState) = σ' := Option.some.inj h
    rcases write_procOf σ.sink u pcm now p with
      ⟨h2, hv⟩ | ⟨uid0, a, hu, h2, hfalse, htrue, hv⟩
    · rw [h2] at h'
      subst h'
      intro uid
      refine ⟨(hInv uid).1, fun hm => ?_⟩
      rw [hv uid]
      exact (hInv uid).2 hm
    · rw [h2] at h'
      subst h'
      have hnotin : uid0 ∉ σ.inflight := by
        intro hmem
        have := (hInv uid0).2 hmem
        rw [hfalse] at this
        exact Bool.false_ne_true this
      intro uid
      constructor
      · by_cases huid : uid = uid0
        · subst huid
          rw [List.count_cons_self, List.count_eq_zero.mpr hnotin]
        · rw [List.count_cons_of_ne huid]
          exact (hInv uid).1
      · intro hm
        rcases List.mem_cons.mp hm with rfl | hm'
        · exact htrue
        · by_cases huid : uid = uid0
          · subst huid
            exact absurd hm' hnotin
          · rw [hv uid huid]
            exact (hInv uid).2 hm'
  | complete uid0 ext =>
    by_cases hm : uid0 ∈ σ.inflight
    · rw [stepSys, if_pos hm] at h
      have h' : ({ sink := (process_audio σ.sink uid0 ext).1,
                   inflight := σ.inflight.erase uid0 } : SysState) = σ' := Option.some.inj h
      subst h'
      intro uid
      constructor
      · show List.count uid (σ.inflight.erase uid0) ≤ 1
        exact le_trans ((List.erase_sublist uid0 σ.inflight).count_le uid) (hInv uid).1
      · intro hmem
        have hmem' : uid ∈ σ.inflight.erase uid0 := hmem
        by_cases huid : uid = uid0
        · subst huid
          exfalso
          have h1 : List.count uid (σ.inflight.erase uid) = List.count uid σ.inflight - 1 :=
            List.count_erase_self uid σ.inflight
          have h2 : 0 < List.count uid (σ.inflight.erase uid) :=
            List.count_pos_iff.mpr hmem'
          have h3 : List.count uid σ.inflight ≤ 1 := (hInv uid).1
          omega
        · show procOf (process_audio σ.sink uid0 ext).1 uid = true
          rw [process_audio_fst, procOf_clearProcessing_ne σ.sink uid0 uid huid]
          exact (hInv uid).2 (List.mem_of_mem_erase hmem')
    · rw [stepSys, if_neg hm] at h
      exact Option.noConfusion h

theorem runSys_preserves {σ : SysState} (hInv : InvSys σ) :
    ∀ {evts : List SysEvent} {σ' : SysState}, runSys σ evts = some σ' → InvSys σ' := by
  intro evts
  induction evts generalizing σ with
  | nil =>
    intro σ' h
    have : σ = σ' := Option.some.inj h
    subst this
    exact hInv
  | cons e es ih =>
    intro σ' h
    rw [runSys] at h
    cases hstep : stepSys σ e with
    | none => rw [hstep] at h; exact absurd h Option.noConfusion
    | some σ1 =>
      rw [hstep] at h
      exact ih (stepSys_preserves hInv hstep) h

/-- C2: per-speaker mutual exclusion of utterance processing.  (1) On every
reachable state of the system, each speaker has at most one outstanding
`process_audio` task.  (2) A frame for a speaker whose `processing` flag is
set is dropped with the entire sink state — that speaker's tracker and every
other speaker's tracker — unchanged and nothing dispatched.  (3) A dispatch
only ever happens for a speaker whose flag was clear, and sets that
speaker's flag before the hand-off completes. -/
theorem claim2_mutual_exclusion :
    (∀ (evts : List SysEvent) (σ : SysState), runSys initSys evts = some σ →
      ∀ uid, σ.inflight.count uid ≤ 1) ∧
    (∀ (s : SinkState) (uid : ℕ) (pcm : List ℕ) (now : ℚ) (playing : Bool),
      procOf s uid = true → write s (some uid) pcm now playing = (s, none)) ∧
    (∀ (s : SinkState) (u : Option ℕ) (pcm : List ℕ) (now : ℚ) (playing : Bool)
      (s' : SinkState) (uid : ℕ) (a : List ℕ),
      write s u pcm now playing = (s', some (uid, a)) →
      procOf s uid = false ∧ procOf s' uid = true) := by
  refine ⟨?_, ?_, ?_⟩
  · intro evts σ h uid
    exact ((runSys_preserves invSys_init h) uid).1
  · intro s uid pcm now playing h
    exact write_of_procOf_true pcm now playing h
  · intro s u pcm now playing s' uid a h
    rcases write_procOf s u pcm now playing with ⟨h2, _⟩ | ⟨uid', a', _, h2, hfalse, htrue, _⟩
    · rw [h] at h2
      exact absurd h2 Option.noConfusion
    · rw [h] at h2 htrue
      have huid : uid = uid' := congrArg Prod.fst (Option.some.inj h2)
      subst huid
      exact ⟨hfalse, htrue⟩

/-- Witness for C2 at concrete inputs: a one-frame trace stays within the
invariant; a frame for a speaker marked `processing` changes nothing; a
concrete flush dispatch flips the dispatching speaker's flag from `false`
to `true`. -/
theorem claim2_witness :
    runSys initSys [SysEvent.frame (some 7) [232, 3] 0 false] =
      some { sink := { user_data := [(7, { buffer := [232, 3], last_spoken := 0,
                                           processing := false })],
                       speaking_users := [7] },
             inflight := [] } ∧
    List.count 7
      (({ sink := { user_data := [(7, { buffer := [232, 3], last_spoken := 0,
                                        processing := false })],
                    speaking_users := [7] },
          inflight := [] } : SysState)).inflight ≤ 1 ∧
    procOf { user_data := [(1, { buffer := [], last_spoken := 0, processing := true })],
             speaking_users := [] } 1 = true ∧
    write { user_data := [(1, { buffer := [], last_spoken := 0, processing := true })],
            speaking_users := [] } (some 1) [] 0 false =
      ({ user_data := [(1, { buffer := [], last_spoken := 0, processing := true })],
         speaking_users := [] }, none) ∧
    procOf c2s 8 = false ∧
    procOf ({ user_data := updateAssoc c2s.user_data 8
                { c2r with buffer := [], processing := true },
              speaking_users := removeUid 8 c2s.speaking_users } : SinkState) 8 = true := by
  have hrun : runSys initSys [SysEvent.frame (some 7) [232, 3] 0 false] =
      some { sink := { user_data := [(7, { buffer := [232, 3], last_spoken := 0,
                                           processing := false })],
                       speaking_users := [7] },
             inflight := [] } := by decide
  have hur : lookupA c2s.user_data 8 = some c2r := rfl
  have hb : (c2r.buffer.length : ℚ) > minDispatchBytes := by
    simp only [c2r, List.length_replicate]
    norm_num [minDispatchBytes, MIN_AUDIO_LENGTH]
  have hw : write c2s (some 8) [] 2 false =
      ({ user_data := updateAssoc c2s.user_data 8
           { c2r with buffer := [], processing := true },
         speaking_users := removeUid 8 c2s.speaking_users }, some (8, c2r.buffer)) := by
    rw [write_not_playing, createIfAbsent_of_some 2 hur,
      processFrame_of_silent 2 hur rfl (by decide),
      silentStep_flush (by simp [c2s]) (by norm_num [c2r, SILENCE_DURATION]),
      flushStep_big hb]
  have h3 := claim2_mutual_exclusion.2.2 c2s (some 8) [] 2 false _ 8 c2r.buffer hw
  refine ⟨hrun, ?_, rfl, ?_, h3.1, h3.2⟩
  · exact claim2_mutual_exclusion.1 [SysEvent.frame (some 7) [232, 3] 0 false] _ hrun 7
  · exact claim2_mutual_exclusion.2.1 _ 1 [] 0 false rfl

/-! ### Step equations for concrete frame sequences -/

theorem runWrites_nil (s : SinkState) : runWrites s [] = (s, []) := rfl

theorem runWrites_cons (s : SinkState) (u : Option ℕ) (pcm : List ℕ) (now : ℚ)
    (p : Bool) (rest : List (Option ℕ × List ℕ × ℚ × Bool)) :
    runWrites s ((u, pcm, now, p) :: rest) =
      ((runWrites (write s u pcm now p).1 rest).1,
       (write s u pcm now p).2.toList ++ (runWrites (write s u pcm now p).1 rest).2) := rfl

/-- A loud frame from a speaker with no registry entry creates the entry and
immediately appends the frame. -/
theorem write_fresh_loud {s : SinkState} {uid : ℕ} {pcm : List ℕ} {now : ℚ}
    (h0 : lookupA s.user_data uid = none) (l1 : loud pcm = true) :
    write s (some uid) pcm now false =
      ({ user_data := updateAssoc s.user_data uid
           { buffer := pcm, last_spoken := now, processing := false },
         speaking_users := addUid uid s.speaking_users }, none) := by
  rw [write_not_playing, createIfAbsent_of_none now h0,
    processFrame_of_loud now (lookupA_updateAssoc_self s.user_data uid (defaultRecord now))
      rfl l1]
  simp [loudStep, defaultRecord, updateAssoc_updateAssoc]

/-- A loud frame from a known, non-processing speaker appends to the
buffer. -/
theorem write_known_loud {s : SinkState} {uid : ℕ} {ur : UserRecord} {pcm : List ℕ}
    {now : ℚ} (hur : lookupA s.user_data uid = some ur) (hp : ur.processing = false)
    (l : loud pcm = true) :
    write s (some uid) pcm now false =
      ({ user_data := updateAssoc s.user_data uid
           { ur with buffer := ur.buffer ++ pcm, last_spoken := now },
         speaking_users := addUid uid s.speaking_users }, none) := by
  rw [write_not_playing, createIfAbsent_of_some now hur, processFrame_of_loud now hur hp l]
  rfl

/-- A silent frame inside a sub-threshold gap changes nothing. -/
theorem write_silent_short {s : SinkState} {uid : ℕ} {ur : UserRecord} {pcm : List ℕ}
    {now : ℚ} (hur : lookupA s.user_data uid = some ur) (hp : ur.processing = false)
    (hl : loud pcm = false) (hs : uid ∈ s.speaking_users)
    (ht : ¬ now - ur.last_spoken > SILENCE_DURATION) :
    write s (some uid) pcm now false = (s, none) := by
  rw [write_not_playing, createIfAbsent_of_some now hur, processFrame_of_silent now hur hp hl,
    silentStep_short hs ht]

/-- A silent frame past the silence window flushes and, over the byte
minimum, dispatches. -/
theorem write_silent_flush_big {s : SinkState} {uid : ℕ} {ur : UserRecord} {pcm : List ℕ}
    {now : ℚ} (hur : lookupA s.user_data uid = some ur) (hp : ur.processing = false)
    (hl : loud pcm = false) (hs : uid ∈ s.speaking_users)
    (ht : now - ur.last_spoken > SILENCE_DURATION)
    (hb : (ur.buffer.length : ℚ) > minDispatchBytes) :
    write s (some uid) pcm now false =
      ({ user_data := updateAssoc s.user_data uid { ur with buffer := [], processing := true },
         speaking_users := removeUid uid s.speaking_users }, some (uid, ur.buffer)) := by
  rw [write_not_playing, createIfAbsent_of_some now hur, processFrame_of_silent now hur hp hl,
    silentStep_flush hs ht, flushStep_big hb]

/-- The gap scenario: from a fresh speaker, a loud segment, a silent frame
inside the silence window, a second loud segment, then a silent frame past
the window.  Exactly one flush happens, at the last frame; it dispatches the
two loud segments concatenated — the silent gap frame was never appended —
and leaves the buffer cleared with `processing` set. -/
theorem gapScenario (s : SinkState) (uid : ℕ) (f1 g f2 f3 : List ℕ) (t1 t2 t3 t4 : ℚ)
    (h0 : lookupA s.user_data uid = none) (l1 : loud f1 = true) (lg : loud g = false)
    (l2 : loud f2 = true) (l3 : loud f3 = false)
    (hgap : ¬ t2 - t1 > SILENCE_DURATION) (hflush : t4 - t3 > SILENCE_DURATION)
    (hlen : ((f1 ++ f2).length : ℚ) > minDispatchBytes) :
    (runWrites s [(some uid, f1, t1, false), (some uid, g, t2, false),
                  (some uid, f2, t3, false), (some uid, f3, t4, false)]).2
      = [(uid, f1 ++ f2)] ∧
    lookupA (runWrites s [(some uid, f1, t1, false), (some uid, g, t2, false),
                  (some uid, f2, t3, false), (some uid, f3, t4, false)]).1.user_data uid
      = some { buffer := [], last_spoken := t3, processing := true } ∧
    uid ∉ (runWrites s [(some uid, f1, t1, false), (some uid, g, t2, false),
                  (some uid, f2, t3, false), (some uid, f3, t4, false)]).1.speaking_users := by
  have hw1 : write s (some uid) f1 t1 false =
      ({ user_data := updateAssoc s.user_data uid
           { buffer := f1, last_spoken := t1, processing := false },
         speaking_users := addUid uid s.speaking_users }, none) := write_fresh_loud h0 l1
  have lookA : lookupA (updateAssoc s.user_data uid
      { buffer := f1, last_spoken := t1, processing := false }) uid =
      some { buffer := f1, last_spoken := t1, processing := false } :=
    lookupA_updateAssoc_self s.user_data uid _
  have memA : uid ∈ addUid uid s.speaking_users := self_mem_addUid uid s.speaking_users
  have hw2 : write ({ user_data := updateAssoc s.user_data uid
                        { buffer := f1, last_spoken := t1, processing := false },
                      speaking_users := addUid uid s.speaking_users } : SinkState)
        (some uid) g t2 false =
      ({ user_data := updateAssoc s.user_data uid
           { buffer := f1, last_spoken := t1, processing := false },
         speaking_users := addUid uid s.speaking_users }, none) :=
    write_silent_short lookA rfl lg memA hgap
  have hw3 : write ({ user_data := updateAssoc s.user_data uid
                        { buffer := f1, last_spoken := t1, processing := false },
                      speaking_users := addUid uid s.speaking_users } : SinkState)
        (some uid) f2 t3 false =
      ({ user_data := updateAssoc s.user_data uid
           { buffer := f1 ++ f2, last_spoken := t3, processing := false },
         speaking_users := addUid uid s.speaking_users }, none) := by
    rw [write_known_loud lookA rfl l2]
    simp [updateAssoc_updateAssoc, addUid_of_mem memA]
  have lookB : lookupA (updateAssoc s.user_data uid
      { buffer := f1 ++ f2, last_spoken := t3, processing := false }) uid =
      some { buffer := f1 ++ f2, last_spoken := t3, processing := false } :=
    lookupA_updateAssoc_self s.user_data uid _
  have hw4 : write ({ user_data := updateAssoc s.user_data uid
                        { buffer := f1 ++ f2, last_spoken := t3, processing := false },
                      speaking_users := addUid uid s.speaking_users } : SinkState)
        (some uid) f3 t4 false =
      ({ user_data := updateAssoc s.user_data uid
           { buffer := [], last_spoken := t3, processing := true },
         speaking_users := removeUid uid (addUid uid s.speaking_users) },
       some (uid, f1 ++ f2)) := by
    rw [write_silent_flush_big lookB rfl l3 memA hflush hlen]
    simp [updateAssoc_updateAssoc]
  refine ⟨?_, ?_, ?_⟩
  · simp only [runWrites_cons, runWrites_nil, hw1, hw2, hw3, hw4, Option.toList]
    rfl
  · simp only [runWrites_cons, runWrites_nil, hw1, hw2, hw3, hw4]
    exact lookupA_updateAssoc_self s.user_data uid _
  · simp only [runWrites_cons, runWrites_nil, hw1, hw2, hw3, hw4]
    exact not_mem_removeUid_self uid (addUid uid s.speaking_users)

/-- C4, counterexample to "the flushed buffer contains both loud segments
plus the short silent gap": for two 48002-byte loud segments separated by a
2-byte silent gap frame, the single dispatched buffer is the 96004-byte
concatenation of the two loud segments only — not the 96006 bytes the claim
requires. -/
theorem claim4_counterexample :
    (runWrites { user_data := [], speaking_users := [] }
        [(some 7, loudFrame 24001, 0, false), (some 7, [0, 0], 3 / 10, false),
         (some 7, loudFrame 24001, 6 / 10, false), (some 7, [0, 0], 2, false)]).2
      = [(7, loudFrame 24001 ++ loudFrame 24001)] ∧
    (loudFrame 24001 ++ loudFrame 24001).length = 96004 ∧
    (loudFrame 24001).length + ([0, 0] : List ℕ).length + (loudFrame 24001).length = 96006 ∧
    (96004 : ℕ) ≠ 96006 := by
  have hloud : loud (loudFrame 24001) = true := loud_loudFrame (by norm_num)
  have hlen1 : (loudFrame 24001).length = 48002 := by
    rw [length_loudFrame]
  have hlen : ((loudFrame 24001 ++ loudFrame 24001).length : ℚ) > minDispatchBytes := by
    rw [List.length_append, hlen1]
    norm_num [minDispatchBytes, MIN_AUDIO_LENGTH]
  have h := gapScenario { user_data := [], speaking_users := [] } 7
    (loudFrame 24001) [0, 0] (loudFrame 24001) [0, 0] 0 (3 / 10) (6 / 10) 2
    rfl hloud (by decide) hloud (by decide)
    (by norm_num [SILENCE_DURATION]) (by norm_num [SILENCE_DURATION]) hlen
  refine ⟨h.1, ?_, ?_, by norm_num⟩
  · rw [List.length_append, hlen1]
  · rw [hlen1]
    rfl

/-- C4 as amended: over the scenario loud — short silent gap — loud — long
silence, exactly one flush occurs, the sub-threshold gap triggers no flush,
the later loud frames append to the same buffer, and the flushed buffer is
the concatenation of the two loud segments only; silent gap frames are never
appended, so its total length is the sum of the two loud segments' lengths,
without the gap. -/
theorem claim4_amended (s : SinkState) (uid : ℕ) (f1 g f2 f3 : List ℕ)
    (t1 t2 t3 t4 : ℚ) (h0 : lookupA s.user_data uid = none)
    (l1 : rms f1 > (SILENCE_THRESHOLD : ℝ)) (lg : rms g ≤ (SILENCE_THRESHOLD : ℝ))
    (l2 : rms f2 > (SILENCE_THRESHOLD : ℝ)) (l3 : rms f3 ≤ (SILENCE_THRESHOLD : ℝ))
    (hgap : ¬ t2 - t1 > SILENCE_DURATION) (hflush : t4 - t3 > SILENCE_DURATION)
    (hlen : ((f1 ++ f2).length : ℚ) > minDispatchBytes) :
    (runWrites s [(some uid, f1, t1, false), (some uid, g, t2, false),
                  (some uid, f2, t3, false), (some uid, f3, t4, false)]).2
      = [(uid, f1 ++ f2)] ∧
    (f1 ++ f2).length = f1.length + f2.length ∧
    lookupA (runWrites s [(some uid, f1, t1, false), (some uid, g, t2, false),
                  (some uid, f2, t3, false), (some uid, f3, t4, false)]).1.user_data uid
      = some { buffer := [], last_spoken := t3, processing := true } ∧
    uid ∉ (runWrites s [(some uid, f1, t1, false), (some uid, g, t2, false),
                  (some uid, f2, t3, false), (some uid, f3, t4, false)]).1.speaking_users := by
  have h := gapScenario s uid f1 g f2 f3 t1 t2 t3 t4 h0
    ((loud_eq_true_iff f1).mpr l1) (loud_eq_false_of_rms_le lg)
    ((loud_eq_true_iff f2).mpr l2) (loud_eq_false_of_rms_le l3)
    hgap hflush hlen
  exact ⟨h.1, List.length_append f1 f2, h.2.1, h.2.2⟩

/-- Witness for the amended C4 at concrete inputs: two 48002-byte loud
segments around a 2-byte silent gap frame, a 0.3 s gap, a 1.4 s trailing
silence. -/
theorem claim4_witness :
    rms (loudFrame 24001) > (SILENCE_THRESHOLD : ℝ) ∧
    rms [0, 0] ≤ (SILENCE_THRESHOLD : ℝ) ∧
    (¬ (3 / 10 : ℚ) - 0 > SILENCE_DURATION) ∧
    ((2 : ℚ) - 6 / 10 > SILENCE_DURATION) ∧
    ((loudFrame 24001 ++ loudFrame 24001).length : ℚ) > minDispatchBytes ∧
    (runWrites { user_data := [], speaking_users := [] }
        [(some 9, loudFrame 24001, 0, false), (some 9, [0, 0], 3 / 10, false),
         (some 9, loudFrame 24001, 6 / 10, false), (some 9, [0, 0], 2, false)]).2
      = [(9, loudFrame 24001 ++ loudFrame 24001)] ∧
    (loudFrame 24001 ++ loudFrame 24001).length =
      (loudFrame 24001).length + (loudFrame 24001).length := by
  have hloud : rms (loudFrame 24001) > (SILENCE_THRESHOLD : ℝ) :=
    rms_loudFrame_gt (by norm_num)
  have hsil : rms [0, 0] ≤ (SILENCE_THRESHOLD : ℝ) :=
    rms_le_of_loud_eq_false (by decide)
  have hgap : ¬ (3 / 10 : ℚ) - 0 > SILENCE_DURATION := by
    norm_num [SILENCE_DURATION]
  have hflush : (2 : ℚ) - 6 / 10 > SILENCE_DURATION := by
    norm_num [SILENCE_DURATION]
  have hlen : ((loudFrame 24001 ++ loudFrame 24001).length : ℚ) > minDispatchBytes := by
    rw [List.length_append, length_loudFrame]
    norm_num [minDispatchBytes, MIN_AUDIO_LENGTH]
  have h := claim4_amended { user_data := [], speaking_users := [] } 9
    (loudFrame 24001) [0, 0] (loudFrame 24001) [0, 0] 0 (3 / 10) (6 / 10) 2
    rfl hloud hsil hloud hsil hgap hflush hlen
  exact ⟨hloud, hsil, hgap, hflush, hlen, h.1, h.2.1⟩

/-! ### Observational equivalence and its bisimulation -/

theorem obsEq_def {s t : SinkState} :
    obsEq s t ↔ (s.speaking_users = t.speaking_users ∧
      ∀ v, recAgree (v ∈ s.speaking_users) (lookupA s.user_data v) (lookupA t.user_data v)) :=
  Iff.rfl

theorem recAgree_refl (sp : Prop) (a : Option UserRecord) : recAgree sp a a := by
  cases a <;> simp [recAgree]

theorem recAgree_congr {sp sp' : Prop} (h : sp ↔ sp') (a b : Option UserRecord)
    (hra : recAgree sp a b) : recAgree sp' a b := by
  cases a with
  | none =>
    cases b with
    | none => simp only [recAgree]
    | some r' =>
      simp only [recAgree] at hra ⊢
      exact ⟨hra.1, hra.2.1, fun hsp' => hra.2.2 (h.mpr hsp')⟩
  | some r =>
    cases b with
    | none =>
      simp only [recAgree] at hra ⊢
      exact ⟨hra.1, hra.2.1, fun hsp' => hra.2.2 (h.mpr hsp')⟩
    | some r' =>
      simp only [recAgree] at hra ⊢
      exact ⟨hra.1, hra.2.1, fun hsp' => hra.2.2 (h.mpr hsp')⟩

theorem mem_addUid_ne {v uid : ℕ} {l : List ℕ} (hv : v ≠ uid) :
    v ∈ addUid uid l ↔ v ∈ l := by
  rw [mem_addUid]
  simp [hv]

theorem mem_removeUid_ne {v uid : ℕ} {l : List ℕ} (hv : v ≠ uid) :
    v ∈ removeUid uid l ↔ v ∈ l := by
  rw [mem_removeUid]
  simp [hv]

theorem obsEq_refl (s : SinkState) : obsEq s s :=
  obsEq_def.mpr ⟨rfl, fun _ => recAgree_refl _ _⟩

/-- Updating both sides with field-agreeing records while adding the speaker
to both speaking sets preserves observational equivalence. -/
theorem obsEq_update_addUid {s1 t1 : SinkState}
    (hsp : s1.speaking_users = t1.speaking_users)
    (hrec : ∀ v, recAgree (v ∈ s1.speaking_users)
      (lookupA s1.user_data v) (lookupA t1.user_data v))
    (uid : ℕ) {r r' : UserRecord} (hb : r.buffer = r'.buffer)
    (hp : r.processing = r'.processing) (hl : r.last_spoken = r'.last_spoken) :
    obsEq { user_data := updateAssoc s1.user_data uid r,
            speaking_users := addUid uid s1.speaking_users }
          { user_data := updateAssoc t1.user_data uid r',
            speaking_users := addUid uid t1.speaking_users } := by
  refine obsEq_def.mpr ⟨?_, fun v => ?_⟩
  · show addUid uid s1.speaking_users = addUid uid t1.speaking_users
    rw [hsp]
  · show recAgree (v ∈ addUid uid s1.speaking_users)
      (lookupA (updateAssoc s1.user_data uid r) v)
      (lookupA (updateAssoc t1.user_data uid r') v)
    by_cases hv : v = uid
    · subst hv
      rw [lookupA_updateAssoc_self, lookupA_updateAssoc_self]
      simp only [recAgree]
      exact ⟨hb, hp, fun _ => hl⟩
    · rw [lookupA_updateAssoc_ne _ _ _ _ hv, lookupA_updateAssoc_ne _ _ _ _ hv]
      exact recAgree_congr (mem_addUid_ne hv).symm _ _ (hrec v)

/-- Updating both sides with field-agreeing records while removing the
speaker from both speaking sets preserves observational equivalence. -/
theorem obsEq_update_removeUid {s1 t1 : SinkState}
    (hsp : s1.speaking_users = t1.speaking_users)
    (hrec : ∀ v, recAgree (v ∈ s1.speaking_users)
      (lookupA s1.user_data v) (lookupA t1.user_data v))
    (uid : ℕ) {r r' : UserRecord} (hb : r.buffer = r'.buffer)
    (hp : r.processing = r'.processing) (hl : r.last_spoken = r'.last_spoken) :
    obsEq { user_data := updateAssoc s1.user_data uid r,
            speaking_users := removeUid uid s1.speaking_users }
          { user_data := updateAssoc t1.user_data uid r',
            speaking_users := removeUid uid t1.speaking_users } := by
  refine obsEq_def.mpr ⟨?_, fun v => ?_⟩
  · show removeUid uid s1.speaking_users = removeUid uid t1.speaking_users
    rw [hsp]
  · show recAgree (v ∈ removeUid uid s1.speaking_users)
      (lookupA (updateAssoc s1.user_data uid r) v)
      (lookupA (updateAssoc t1.user_data uid r') v)
    by_cases hv : v = uid
    · subst hv
      rw [lookupA_updateAssoc_self, lookupA_updateAssoc_self]
      simp only [recAgree]
      exact ⟨hb, hp, fun _ => hl⟩
    · rw [lookupA_updateAssoc_ne _ _ _ _ hv, lookupA_updateAssoc_ne _ _ _ _ hv]
      exact recAgree_congr (mem_removeUid_ne hv).symm _ _ (hrec v)

/-- Bisimulation of `processFrame` under observational equivalence, given
agreeing records for the invoked speaker on both sides. -/
theorem processFrame_obsEq {s1 t1 : SinkState} {uid : ℕ} {ur ur' : UserRecord}
    (hsp : s1.speaking_users = t1.speaking_users)
    (hrec : ∀ v, recAgree (v ∈ s1.speaking_users)
      (lookupA s1.user_data v) (lookupA t1.user_data v))
    (hu : lookupA s1.user_data uid = some ur) (hu' : lookupA t1.user_data uid = some ur')
    (hbuf : ur.buffer = ur'.buffer) (hproc : ur.processing = ur'.processing)
    (hlast : uid ∈ s1.speaking_users → ur.last_spoken = ur'.last_spoken)
    (pcm : List ℕ) (now : ℚ) :
    (processFrame s1 uid pcm now).2 = (processFrame t1 uid pcm now).2 ∧
    obsEq (processFrame s1 uid pcm now).1 (processFrame t1 uid pcm now).1 := by
  by_cases hp : ur.processing = true
  · have hp' : ur'.processing = true := by rw [← hproc]; exact hp
    rw [processFrame_of_processing pcm now hu hp, processFrame_of_processing pcm now hu' hp']
    exact ⟨rfl, obsEq_def.mpr ⟨hsp, hrec⟩⟩
  · have hpf : ur.processing = false := by
      cases h : ur.processing
      · rfl
      · exact absurd h hp
    have hpf' : ur'.processing = false := by rw [← hproc]; exact hpf
    by_cases hl : loud pcm = true
    · rw [processFrame_of_loud now hu hpf hl, processFrame_of_loud now hu' hpf' hl]
      refine ⟨rfl, ?_⟩
      exact obsEq_update_addUid hsp hrec uid (by simp [hbuf]) (by simp [hproc]) (by simp)
    · have hl' : loud pcm = false := by
        cases h : loud pcm
        · rfl
        · exact absurd h hl
      rw [processFrame_of_silent now hu hpf hl', processFrame_of_silent now hu' hpf' hl']
      by_cases hs : uid ∈ s1.speaking_users
      · have hs' : uid ∈ t1.speaking_users := hsp ▸ hs
        have hlast' : ur.last_spoken = ur'.last_spoken := hlast hs
        by_cases ht : now - ur.last_spoken > SILENCE_DURATION
        · have ht' : now - ur'.last_spoken > SILENCE_DURATION := by
            rw [← hlast']; exact ht
          rw [silentStep_flush hs ht, silentStep_flush hs' ht']
          by_cases hb : (ur.buffer.length : ℚ) > minDispatchBytes
          · have hb' : (ur'.buffer.length : ℚ) > minDispatchBytes := by
              rw [← hbuf]; exact hb
            rw [flushStep_big hb, flushStep_big hb']
            refine ⟨?_, ?_⟩
            · show some (uid, ur.buffer) = some (uid, ur'.buffer)
              rw [hbuf]
            · exact obsEq_update_removeUid hsp hrec uid (by simp) (by simp) (by simp [hlast'])
          · have hb' : ¬ (ur'.buffer.length : ℚ) > minDispatchBytes := by
              rw [← hbuf]; exact hb
            rw [flushStep_small hb, flushStep_small hb']
            exact ⟨rfl, obsEq_update_removeUid hsp hrec uid (by simp) (by simp [hproc])
              (by simp [hlast'])⟩
        · have ht' : ¬ now - ur'.last_spoken > SILENCE_DURATION := by
            rw [← hlast']; exact ht
          rw [silentStep_short hs ht, silentStep_short hs' ht']
          exact ⟨rfl, obsEq_def.mpr ⟨hsp, hrec⟩⟩
      · have hs' : uid ∉ t1.speaking_users := by rw [← hsp]; exact hs
        rw [silentStep_not_speaking ur now hs, silentStep_not_speaking ur' now hs']
        exact ⟨rfl, obsEq_def.mpr ⟨hsp, hrec⟩⟩

/-- Bisimulation of `write` under observational equivalence: equivalent
states dispatch identically and remain equivalent. -/
theorem write_obsEq {s t : SinkState} (h : obsEq s t) (u : Option ℕ) (pcm : List ℕ)
    (now : ℚ) (p : Bool) :
    (write s u pcm now p).2 = (write t u pcm now p).2 ∧
    obsEq (write s u pcm now p).1 (write t u pcm now p).1 := by
  obtain ⟨hsp, hrec⟩ := obsEq_def.mp h
  cases u with
  | none => exact ⟨rfl, h⟩
  | some uid =>
    cases p with
    | true => exact ⟨rfl, h⟩
    | false =>
      rw [write_not_playing, write_not_playing]
      have hra := hrec uid
      cases hu : lookupA s.user_data uid with
      | some r =>
        cases hu' : lookupA t.user_data uid with
        | some r' =>
          rw [hu, hu'] at hra
          simp only [recAgree] at hra
          rw [createIfAbsent_of_some now hu, createIfAbsent_of_some now hu']
          exact processFrame_obsEq hsp hrec hu hu' hra.1 hra.2.1 hra.2.2 pcm now
        | none =>
          rw [hu, hu'] at hra
          simp only [recAgree] at hra
          rw [createIfAbsent_of_some now hu, createIfAbsent_of_none now hu']
          refine @processFrame_obsEq s
            { t with user_data := updateAssoc t.user_data uid (defaultRecord now) }
            uid r (defaultRecord now)
            hsp (fun v => ?_) hu (lookupA_updateAssoc_self t.user_data uid _)
            (by simp [defaultRecord, hra.1]) (by simp [defaultRecord, hra.2.1])
            (fun hmem => absurd hmem hra.2.2) pcm now
          · show recAgree (v ∈ s.speaking_users) (lookupA s.user_data v)
              (lookupA (updateAssoc t.user_data uid (defaultRecord now)) v)
            by_cases hv : v = uid
            · subst hv
              rw [hu, lookupA_updateAssoc_self]
              simp only [recAgree]
              exact ⟨hra.1, hra.2.1, fun hmem => absurd hmem hra.2.2⟩
            · rw [lookupA_updateAssoc_ne _ _ _ _ hv]
              exact hrec v
      | none =>
        cases hu' : lookupA t.user_data uid with
        | some r' =>
          rw [hu, hu'] at hra
          simp only [recAgree] at hra
          rw [createIfAbsent_of_none now hu, createIfAbsent_of_some now hu']
          refine @processFrame_obsEq
            { s with user_data := updateAssoc s.user_data uid (defaultRecord now) } t
            uid (defaultRecord now) r'
            hsp (fun v => ?_) (lookupA_updateAssoc_self s.user_data uid _) hu'
            (by simp [defaultRecord, hra.1]) (by simp [defaultRecord, hra.2.1])
            (fun hmem => absurd hmem hra.2.2) pcm now
          · show recAgree (v ∈ s.speaking_users)
              (lookupA (updateAssoc s.user_data uid (defaultRecord now)) v)
              (lookupA t.user_data v)
            by_cases hv : v = uid
            · subst hv
              rw [hu', lookupA_updateAssoc_self]
              simp only [recAgree]
              exact ⟨hra.1.symm, hra.2.1.symm, fun hmem => absurd hmem hra.2.2⟩
            · rw [lookupA_updateAssoc_ne _ _ _ _ hv]
              exact hrec v
        | none =>
          rw [createIfAbsent_of_none now hu, createIfAbsent_of_none now hu']
          refine @processFrame_obsEq
            { s with user_data := updateAssoc s.user_data uid (defaultRecord now) }
            { t with user_data := updateAssoc t.user_data uid (defaultRecord now) }
            uid (defaultRecord now) (defaultRecord now)
            hsp (fun v => ?_) (lookupA_updateAssoc_self s.user_data uid _)
            (lookupA_updateAssoc_self t.user_data uid _) rfl rfl (fun _ => rfl) pcm now
          · show recAgree (v ∈ s.speaking_users)
              (lookupA (updateAssoc s.user_data uid (defaultRecord now)) v)
              (lookupA (updateAssoc t.user_data uid (defaultRecord now)) v)
            by_cases hv : v = uid
            · subst hv
              rw [lookupA_updateAssoc_self, lookupA_updateAssoc_self]
              exact recAgree_refl _ _
            · rw [lookupA_updateAssoc_ne _ _ _ _ hv, lookupA_updateAssoc_ne _ _ _ _ hv]
              exact hrec v

/-- Equivalent states yield exactly the same dispatched utterances over any
frame sequence. -/
theorem runWrites_obsEq : ∀ (evts : List (Option ℕ × List ℕ × ℚ × Bool))
    {s t : SinkState}, obsEq s t → (runWrites s evts).2 = (runWrites t evts).2
  | [], _, _, _ => rfl
  | (u, pcm, now, p) :: rest, s, t, h => by
    rw [runWrites_cons, runWrites_cons]
    have hw := write_obsEq h u pcm now p
    rw [hw.1, runWrites_obsEq rest hw.2]

/-- C8: a frame with RMS at or below the threshold arriving while the
speaker is not marked speaking causes no behavioural state change: nothing
is dispatched, every existing registry entry is unchanged, the speaking set
is unchanged, and — even on a speaker's very first frame, where a fresh
inert registry entry is lazily created (main.py lines 61-66) — the resulting
state is observationally equivalent: it dispatches exactly the same
utterances on every subsequent frame sequence.  If the speaker already had
an entry, the state is literally unchanged. -/
theorem claim8_silent_idle (s : SinkState) (uid : ℕ) (pcm : List ℕ) (now : ℚ)
    (hrms : rms pcm ≤ (SILENCE_THRESHOLD : ℝ)) (hs : uid ∉ s.speaking_users) :
    (write s (some uid) pcm now false).2 = none ∧
    ((lookupA s.user_data uid).isSome → (write s (some uid) pcm now false).1 = s) ∧
    (∀ v r, lookupA s.user_data v = some r →
      lookupA (write s (some uid) pcm now false).1.user_data v = some r) ∧
    (write s (some uid) pcm now false).1.speaking_users = s.speaking_users ∧
    ∀ evts, (runWrites s evts).2 = (runWrites (write s (some uid) pcm now false).1 evts).2 := by
  have hl := loud_eq_false_of_rms_le hrms
  cases hu : lookupA s.user_data uid with
  | some r =>
    have hw : write s (some uid) pcm now false = (s, none) := by
      by_cases hp : r.processing = true
      · refine write_of_procOf_true pcm now false ?_
        unfold procOf
        rw [hu]
        exact hp
      · have hp' : r.processing = false := by
          cases h : r.processing
          · rfl
          · exact absurd h hp
        rw [write_not_playing, createIfAbsent_of_some now hu,
          processFrame_of_silent now hu hp' hl, silentStep_not_speaking r now hs]
    rw [hw]
    exact ⟨rfl, fun _ => rfl, fun v r hr => hr, rfl, fun evts => rfl⟩
  | none =>
    have hw : write s (some uid) pcm now false =
        ({ s with user_data := updateAssoc s.user_data uid (defaultRecord now) }, none) := by
      rw [write_not_playing, createIfAbsent_of_none now hu,
        processFrame_of_silent now (lookupA_updateAssoc_self s.user_data uid _) rfl hl,
        @silentStep_not_speaking
          { s with user_data := updateAssoc s.user_data uid (defaultRecord now) } uid
          (defaultRecord now) now hs]
    rw [hw]
    refine ⟨rfl, ?_, ?_, rfl, ?_⟩
    · intro hsome
      simp at hsome
    · intro v r hr
      have hv : v ≠ uid := by
        intro he
        subst he
        rw [hu] at hr
        exact Option.noConfusion hr
      show lookupA (updateAssoc s.user_data uid (defaultRecord now)) v = some r
      rw [lookupA_updateAssoc_ne s.user_data uid v _ hv]
      exact hr
    · intro evts
      refine runWrites_obsEq evts (obsEq_def.mpr ⟨rfl, fun v => ?_⟩)
      show recAgree (v ∈ s.speaking_users) (lookupA s.user_data v)
        (lookupA (updateAssoc s.user_data uid (defaultRecord now)) v)
      by_cases hv : v = uid
      · subst hv
        rw [hu, lookupA_updateAssoc_self]
        simp only [recAgree]
        exact ⟨rfl, rfl, hs⟩
      · rw [lookupA_updateAssoc_ne s.user_data uid v _ hv]
        exact recAgree_refl _ _

/-- Witness for C8 at concrete inputs: a silent frame from the never-seen,
non-speaking speaker 5 dispatches nothing, leaves speaker 6's entry and the
speaking set unchanged, and the resulting state dispatches identically on a
subsequent loud frame. -/
theorem claim8_witness :
    rms [0, 0] ≤ (SILENCE_THRESHOLD : ℝ) ∧
    5 ∉ c8s.speaking_users ∧
    (write c8s (some 5) [0, 0] 0 false).2 = none ∧
    lookupA (write c8s (some 5) [0, 0] 0 false).1.user_data 6 =
      some { buffer := [9], last_spoken := 0, processing := false } ∧
    (write c8s (some 5) [0, 0] 0 false).1.speaking_users = c8s.speaking_users ∧
    (runWrites c8s [(some 5, loudFrame 1, 1, false)]).2 =
      (runWrites (write c8s (some 5) [0, 0] 0 false).1 [(some 5, loudFrame 1, 1, false)]).2 := by
  have hrms : rms [0, 0] ≤ (SILENCE_THRESHOLD : ℝ) := rms_le_of_loud_eq_false (by decide)
  have hns : 5 ∉ c8s.speaking_users := by simp [c8s]
  have h := claim8_silent_idle c8s 5 [0, 0] 0 hrms hns
  exact ⟨hrms, hns, h.1, h.2.2.1 6 _ rfl, h.2.2.2.1,
    h.2.2.2.2 [(some 5, loudFrame 1, 1, false)]⟩

end VoicePipeline
